import Mathlib

/-!
Shallow embedding of the termbox input-box layout engine (src/lib.rs,
src/main.rs, src/ui.rs).

Conventions:
* Rust `usize` values are modelled as `Nat`.  The source performs two
  arithmetic operations that can abort at runtime: unsigned subtraction
  (panics on underflow in debug builds) and division (panics when the
  divisor is zero).  Both are modelled by `Option`-valued operations where
  `none` stands for the aborted computation.  The one `while` loop of the
  source (`calculate_cursor_position` / `render_text_lines` /
  `draw_prompt_line`) fails to advance when the inner width is zero; the
  fuel-based encoding below returns `none` exactly in that situation.
* Rust `String` / `&str` values are modelled as `List Char`; `len()` is
  `List.length` (the source measures byte length, the spec restricts
  attention to ASCII text, where the two coincide).
-/

namespace Termbox

/-- Width of the left decoration "│ > " in display columns (src/lib.rs:5). -/
def LEFT_FRAME_CHARS : Nat := 4

/-- Width of the right border "│" (src/lib.rs:6). -/
def RIGHT_FRAME_CHARS : Nat := 1

/-- Total fixed frame overhead, 5 columns (src/lib.rs:10). -/
def FRAME_CHARS : Nat := LEFT_FRAME_CHARS + RIGHT_FRAME_CHARS

/-- Rust unsigned subtraction; `none` models the underflow panic. -/
def checkedSub (a b : Nat) : Option Nat :=
  if b ≤ a then some (a - b) else none

/-- Rust unsigned division; `none` models the division-by-zero panic. -/
def checkedDiv (a b : Nat) : Option Nat :=
  if b = 0 then none else some (a / b)

/-- Rust `text.split('\n')`: the list of newline-separated segments.
Always yields at least one segment; a trailing newline yields a trailing
empty segment. -/
def splitNl : List Char → List (List Char)
  | [] => [[]]
  | c :: rest =>
    match splitNl rest with
    | [] => [[]]
    | s :: ss => if c = '\n' then [] :: s :: ss else (c :: s) :: ss

/-- Contribution of one segment inside the loop of
`calculate_required_lines` (src/lib.rs:124-131): an empty segment counts
1, a non-empty one counts `((len + inner_width - 1) / inner_width).max(1)`. -/
def segmentLines (inner_width : Nat) (line : List Char) : Option Nat :=
  if line = [] then some 1
  else
    match checkedDiv (line.length + inner_width - 1) inner_width with
    | none => none
    | some wrapped_lines => some (max wrapped_lines 1)

/-- Accumulating loop of `calculate_required_lines` over the segments. -/
def requiredLoop (inner_width : Nat) : List (List Char) → Nat → Option Nat
  | [], total_lines => some total_lines
  | line :: rest, total_lines =>
    match segmentLines inner_width line with
    | none => none
    | some n => requiredLoop inner_width rest (total_lines + n)

/-- Embedding of `calculate_required_lines` (src/lib.rs:116-134). -/
def calculate_required_lines (text : List Char) (cols : Nat) : Option Nat :=
  if text = [] then some 3
  else
    match checkedSub cols FRAME_CHARS with
    | none => none
    | some inner_width =>
      match requiredLoop inner_width (splitNl text) 0 with
      | none => none
      | some total_lines => some (total_lines + 2)

/-- Fuel-based encoding of the wrapping `while` loop
(src/lib.rs:168-173 and the identical loops in `render_text_lines` and
`draw_prompt_line`): repeatedly slice off the next `w` characters.  The
loop consumes at least one character per iteration when `0 < w`, so fuel
`l.length` is always enough; with `w = 0` the source loop never advances
(divergence), modelled by `none`. -/
def chunksFuel (w : Nat) : Nat → List Char → Option (List (List Char))
  | _, [] => some []
  | 0, _ :: _ => none
  | fuel + 1, c :: rest =>
    if w = 0 then none
    else
      match chunksFuel w fuel ((c :: rest).drop w) with
      | none => none
      | some cs => some ((c :: rest).take w :: cs)

/-- The wrapping loop applied to one segment. -/
def chunksLoop (w : Nat) (l : List Char) : Option (List (List Char)) :=
  chunksFuel w l.length l

/-- Display-line construction shared verbatim by `calculate_cursor_position`
(src/lib.rs:161-175), `render_text_lines` (src/lib.rs:191-205) and
`draw_prompt_line` (src/ui.rs:159-173): split on newlines, push one empty
display line per empty segment, and wrap every non-empty segment. -/
def displayLinesLoop (w : Nat) : List (List Char) → Option (List (List Char))
  | [] => some []
  | seg :: rest =>
    match (if seg = [] then some [([] : List Char)] else chunksLoop w seg) with
    | none => none
    | some head =>
      match displayLinesLoop w rest with
      | none => none
      | some tail => some (head ++ tail)

/-- The display-line list built inside `calculate_cursor_position`
(src/lib.rs:161-175). -/
def cursorDisplayLines (w : Nat) (text : List Char) : Option (List (List Char)) :=
  displayLinesLoop w (splitNl text)

/-- The display-line list built inside `render_text_lines` /
`draw_prompt_line` (src/lib.rs:191-205, src/ui.rs:159-173). -/
def renderDisplayLines (w : Nat) (text : List Char) : Option (List (List Char)) :=
  displayLinesLoop w (splitNl text)

/-- Embedding of `calculate_cursor_position` (src/lib.rs:152-183). -/
def calculate_cursor_position (text : List Char) (cols rows required_lines : Nat) :
    Option (Nat × Nat) :=
  match checkedSub cols FRAME_CHARS with
  | none => none
  | some inner_width =>
    match cursorDisplayLines inner_width text with
    | none => none
    | some lines =>
      let last_line := lines.getLast?.getD []
      match checkedSub rows required_lines with
      | none => none
      | some base =>
        some (4 + last_line.length, base + 1 + lines.length - 1)

/-- Rows on which `draw_frame` (src/ui.rs:65-110) paints the borders: the
top border at `rows - required_lines`, the bottom border at `rows - 1`. -/
def draw_frame_border_rows (rows required_lines : Nat) : Option (Nat × Nat) :=
  match checkedSub rows required_lines with
  | none => none
  | some frame_start => some (frame_start, rows - 1)

/-- Strip one trailing carriage return, as Rust `lines()` does on every
newline-terminated line. -/
def stripCRSuffix (l : List Char) : List Char :=
  if l.getLast? = some '\r' then l.dropLast else l

/-- Rust `str::lines()`: newline-separated segments, except that a trailing
newline produces no trailing empty segment and each newline-terminated
segment loses one trailing `'\r'`. -/
def rustLines (text : List Char) : List (List Char) :=
  let segs := splitNl text
  let last := segs.getLast?.getD []
  let init := segs.dropLast.map stripCRSuffix
  if last = [] then init else init ++ [last]

/-- Accumulating loop of `handle_enter_key` over `submitted_text.lines()`
(src/main.rs:333-343): an empty line counts 1 terminal row, a non-empty one
counts `(line_length + terminal_width - 1) / terminal_width` rows. -/
def scrollLoop (terminal_width : Nat) : List (List Char) → Nat → Option Nat
  | [], total => some total
  | line :: rest, total =>
    if line = [] then scrollLoop terminal_width rest (total + 1)
    else
      match checkedDiv (line.length + terminal_width - 1) terminal_width with
      | none => none
      | some wrapped_lines => scrollLoop terminal_width rest (total + wrapped_lines)

/-- Count published as `ScrollEvent::ScrolledUp(n)` by `handle_enter_key`
(src/main.rs:330-347, 377-383): terminal rows taken by the committed text,
measured against the full terminal width, with minimum 1. -/
def submit_scrolled_up_count (submitted_text : List Char) (cols : Nat) : Option Nat :=
  match scrollLoop cols (rustLines submitted_text) 0 with
  | none => none
  | some total_terminal_lines =>
    some (if total_terminal_lines = 0 then 1 else total_terminal_lines)

/-- Key codes distinguished by `InputState::handle_key` (src/lib.rs:39-78);
`Other` stands for every code hitting the final wildcard arm. -/
inductive KeyCode where
  | Esc
  | Enter
  | Backspace
  | Char (c : Char)
  | Other
deriving DecidableEq

/-- The two modifier bits inspected by `handle_key`. -/
structure KeyModifiers where
  control : Bool
  alt : Bool
deriving DecidableEq

/-- Result of handling a keyboard event (src/lib.rs:14-17). -/
inductive KeyAction where
  | Continue
  | Exit
deriving DecidableEq

/-- State of the input application (src/lib.rs:21-26). -/
structure InputState where
  buffer : List Char
  cols : Nat
  rows : Nat
  required_lines : Nat
deriving DecidableEq

/-- Embedding of `InputState::update_required_lines` (src/lib.rs:86-88). -/
def InputState.update_required_lines (s : InputState) : Option InputState :=
  match calculate_required_lines s.buffer s.cols with
  | none => none
  | some r => some { s with required_lines := r }

/-- Embedding of `InputState::new` (src/lib.rs:29-37). -/
def InputState.new (cols rows : Nat) : Option InputState :=
  match calculate_required_lines [] cols with
  | none => none
  | some r => some { buffer := [], cols := cols, rows := rows, required_lines := r }

/-- Embedding of `InputState::handle_key` (src/lib.rs:39-78), arms in
source order.  `none` models a panic inside `update_required_lines`. -/
def InputState.handle_key (s : InputState) (key_code : KeyCode)
    (modifiers : KeyModifiers) : Option (KeyAction × InputState) :=
  match key_code with
  | .Esc => some (.Exit, s)
  | .Enter =>
    if modifiers.alt then
      match InputState.update_required_lines { s with buffer := s.buffer ++ ['\n'] } with
      | none => none
      | some s' => some (.Continue, s')
    else some (.Continue, s)
  | .Backspace =>
    match InputState.update_required_lines { s with buffer := s.buffer.dropLast } with
    | none => none
    | some s' => some (.Continue, s')
  | .Char c =>
    if (c = 'c' || c = 'd') && modifiers.control then some (.Exit, s)
    else if c = 'j' && modifiers.control then
      match InputState.update_required_lines { s with buffer := s.buffer ++ ['\n'] } with
      | none => none
      | some s' => some (.Continue, s')
    else
      match InputState.update_required_lines { s with buffer := s.buffer ++ [c] } with
      | none => none
      | some s' => some (.Continue, s')
  | .Other => some (.Continue, s)

/-- Embedding of `InputState::handle_resize` (src/lib.rs:80-84). -/
def InputState.handle_resize (s : InputState) (new_cols new_rows : Nat) :
    Option InputState :=
  InputState.update_required_lines { s with cols := new_cols, rows := new_rows }

/-- Embedding of `InputState::get_submitted_text` (src/lib.rs:90-99). -/
def InputState.get_submitted_text (s : InputState) :
    Option (Option (List Char) × InputState) :=
  if s.buffer = [] then some (none, s)
  else
    match InputState.update_required_lines { s with buffer := [] } with
    | none => none
    | some s' => some (some s.buffer, s')

/-- One mutating operation on an `InputState`. -/
inductive Op where
  | key (code : KeyCode) (modifiers : KeyModifiers)
  | resize (new_cols new_rows : Nat)
  | submit
deriving DecidableEq

/-- Effect of one operation on the state. -/
def stepOp (s : InputState) : Op → Option InputState
  | .key code modifiers =>
    match s.handle_key code modifiers with
    | none => none
    | some (_, s') => some s'
  | .resize c r => s.handle_resize c r
  | .submit =>
    match s.get_submitted_text with
    | none => none
    | some (_, s') => some s'

/-- Run a sequence of operations. -/
def runOps (s : InputState) : List Op → Option InputState
  | [] => some s
  | op :: ops =>
    match stepOp s op with
    | none => none
    | some s' => runOps s' ops

/-- An operation keeps the column count above the frame width: true for
every operation except a resize to at most `FRAME_CHARS` columns. -/
def Op.colsOK : Op → Bool
  | .resize c _ => decide (5 < c)
  | _ => true

/-- Per-segment display-line count named by the spec:
`ceil(len(segment) / w).max(1)`. -/
def wrapCount (w : Nat) (seg : List Char) : Nat :=
  max 1 ((seg.length + w - 1) / w)

/-- Required-line formula exactly as the spec states it: 2 plus the sum of
`wrapCount` over the `split('\n')` segments, with inner width
`cols - FRAME_CHARS`. -/
def specRequiredLines (text : List Char) (cols : Nat) : Nat :=
  2 + ((splitNl text).map (wrapCount (cols - FRAME_CHARS))).sum

/-- Scrolled-row formula exactly as the claim states it for the submit
handler: the same sum over `split('\n')` segments, measured against the
full terminal width. -/
def specScrolledUpCount (text : List Char) (cols : Nat) : Nat :=
  ((splitNl text).map (wrapCount cols)).sum

/-- The state invariant maintained by every `InputState` operation. -/
def stateInv (s : InputState) : Prop :=
  calculate_required_lines s.buffer s.cols = some s.required_lines

theorem FRAME_CHARS_eq : FRAME_CHARS = 5 := rfl

theorem splitNl_ne_nil (t : List Char) : splitNl t ≠ [] := by
  cases t with
  | nil => simp [splitNl]
  | cons c rest =>
    simp only [splitNl]
    cases splitNl rest with
    | nil => simp
    | cons s ss =>
      by_cases h : c = '\n' <;> simp [h]

theorem pred_div_self_eq_zero (w : Nat) : (w - 1) / w = 0 := by
  rcases Nat.eq_zero_or_pos w with h | h
  · simp [h]
  · exact Nat.div_eq_of_lt (by omega)

theorem ceil_div_pred (w n : Nat) (hw : 0 < w) (hn : 0 < n) :
    (n + w - 1) / w = (n - 1) / w + 1 := by
  have h : n + w - 1 = (n - 1) + w := by omega
  rw [h, Nat.add_div_right _ hw]

theorem ceil_div_pos (w n : Nat) (hw : 0 < w) (hn : 0 < n) :
    0 < (n + w - 1) / w := by
  rw [ceil_div_pred w n hw hn]
  exact Nat.succ_pos _

theorem chunksFuel_spec (w : Nat) (hw : 0 < w) :
    ∀ fuel l, l.length ≤ fuel →
      ∃ cs, chunksFuel w fuel l = some cs ∧ cs.length = (l.length + w - 1) / w := by
  intro fuel
  induction fuel with
  | zero =>
    intro l hl
    have : l = [] := by
      cases l with
      | nil => rfl
      | cons c rest => simp at hl
    subst this
    exact ⟨[], rfl, by simpa using (pred_div_self_eq_zero w).symm⟩
  | succ fuel ih =>
    intro l hl
    cases l with
    | nil => exact ⟨[], rfl, by simpa using (pred_div_self_eq_zero w).symm⟩
    | cons c rest =>
      have hdrop : ((c :: rest).drop w).length ≤ fuel := by
        simp only [List.length_drop, List.length_cons] at hl ⊢
        omega
      obtain ⟨cs, hcs, hlen⟩ := ih ((c :: rest).drop w) hdrop
      refine ⟨(c :: rest).take w :: cs, ?_, ?_⟩
      · simp [chunksFuel, Nat.pos_iff_ne_zero.mp hw, hcs]
      · have hdl : ((c :: rest).drop w).length = (c :: rest).length - w :=
          List.length_drop w (c :: rest)
        have hn1 : 1 ≤ (c :: rest).length := by simp
        have hcons : ((c :: rest).take w :: cs).length = cs.length + 1 := by simp
        rw [hcons, hlen, hdl]
        set n := (c :: rest).length with hn
        rcases le_or_lt n w with hle | hlt
        · have h1 : n - w = 0 := by omega
          have h2 : (n + w - 1) / w = (n - 1) / w + 1 := ceil_div_pred w n hw (by omega)
          have h3 : (n - 1) / w = 0 := Nat.div_eq_of_lt (by omega)
          have h4 : (n - w + w - 1) / w = 0 := by
            rw [h1]
            simpa using pred_div_self_eq_zero w
          omega
        · have h2 : 0 < n - w := by omega
          have h3 : (n - w + w - 1) / w = (n - w - 1) / w + 1 :=
            ceil_div_pred w (n - w) hw h2
          have h4 : (n + w - 1) / w = (n - 1) / w + 1 := ceil_div_pred w n hw (by omega)
          have h5 : n - 1 = (n - w - 1) + w := by omega
          rw [h3, h4, h5, Nat.add_div_right _ hw]

theorem chunksLoop_spec (w : Nat) (hw : 0 < w) (l : List Char) :
    ∃ cs, chunksLoop w l = some cs ∧ cs.length = (l.length + w - 1) / w :=
  chunksFuel_spec w hw l.length l le_rfl

theorem wrapCount_pos (w : Nat) (seg : List Char) : 1 ≤ wrapCount w seg :=
  le_max_left 1 _

theorem wrapCount_nil (w : Nat) : wrapCount w [] = 1 := by
  simp only [wrapCount, List.length_nil, Nat.zero_add, pred_div_self_eq_zero w]
  decide

theorem displayLinesLoop_spec (w : Nat) (hw : 0 < w) :
    ∀ segs, ∃ ls, displayLinesLoop w segs = some ls ∧
      ls.length = (segs.map (wrapCount w)).sum := by
  intro segs
  induction segs with
  | nil => exact ⟨[], rfl, by simp⟩
  | cons seg rest ih =>
    obtain ⟨tl, htl, htlen⟩ := ih
    by_cases hseg : seg = []
    · refine ⟨[] :: tl, ?_, ?_⟩
      · simp [displayLinesLoop, hseg, htl]
      · simp only [List.length_cons, htlen, hseg, List.map_cons, List.sum_cons,
          wrapCount_nil]
        omega
    · obtain ⟨cs, hcs, hclen⟩ := chunksLoop_spec w hw seg
      refine ⟨cs ++ tl, ?_, ?_⟩
      · simp [displayLinesLoop, hseg, hcs, htl]
      · have hpos : 0 < seg.length := List.length_pos.mpr hseg
        have : wrapCount w seg = (seg.length + w - 1) / w := by
          simp only [wrapCount]
          exact Nat.max_eq_right (ceil_div_pos w seg.length hw hpos)
        simp [htlen, hclen, this]

theorem cursorDisplayLines_spec (w : Nat) (hw : 0 < w) (text : List Char) :
    ∃ ls, cursorDisplayLines w text = some ls ∧
      ls.length = ((splitNl text).map (wrapCount w)).sum ∧ 1 ≤ ls.length := by
  obtain ⟨ls, hls, hlen⟩ := displayLinesLoop_spec w hw (splitNl text)
  refine ⟨ls, hls, hlen, ?_⟩
  rw [hlen]
  cases hsp : splitNl text with
  | nil => exact absurd hsp (splitNl_ne_nil text)
  | cons a rest =>
    have h1 := wrapCount_pos w a
    have h2 : (0 : Nat) ≤ (rest.map (wrapCount w)).sum := Nat.zero_le _
    simp only [List.map_cons, List.sum_cons]
    omega

theorem requiredLoop_spec (w : Nat) (hw : 0 < w) :
    ∀ segs total, requiredLoop w segs total =
      some (total + (segs.map (wrapCount w)).sum) := by
  intro segs
  induction segs with
  | nil => intro total; simp [requiredLoop]
  | cons seg rest ih =>
    intro total
    by_cases hseg : seg = []
    · subst hseg
      have h1 : segmentLines w [] = some 1 := by simp [segmentLines]
      simp only [requiredLoop, h1, ih, List.map_cons, List.sum_cons,
        wrapCount_nil, Option.some.injEq]
      omega
    · have hpos : 0 < seg.length := List.length_pos.mpr hseg
      have h1 : segmentLines w seg = some (wrapCount w seg) := by
        simp only [segmentLines, if_neg hseg, checkedDiv,
          if_neg (Nat.pos_iff_ne_zero.mp hw), wrapCount]
        rw [Nat.max_comm]
      simp only [requiredLoop, h1, ih, List.map_cons, List.sum_cons,
        Option.some.injEq]
      omega

theorem calculate_required_lines_eq (text : List Char) (cols : Nat)
    (h : 5 < cols) : calculate_required_lines text cols =
      some (specRequiredLines text cols) := by
  by_cases ht : text = []
  · subst ht
    have : specRequiredLines [] cols = 3 := by
      simp [specRequiredLines, splitNl, wrapCount_nil]
    rw [this]
    rfl
  · have hw : 0 < cols - 5 := by omega
    have hsub : checkedSub cols FRAME_CHARS = some (cols - 5) := by
      simp only [checkedSub, FRAME_CHARS_eq]
      rw [if_pos (by omega)]
    have hloop := requiredLoop_spec (cols - 5) hw (splitNl text) 0
    simp only [calculate_required_lines, if_neg ht, hsub, hloop]
    simp only [specRequiredLines, FRAME_CHARS_eq]
    congr 1
    omega

theorem ceilDiv_le_of_le (n w1 w2 : Nat) (hw1 : 0 < w1) (h12 : w1 ≤ w2) :
    (n + w2 - 1) / w2 ≤ (n + w1 - 1) / w1 := by
  have hw2 : 0 < w2 := lt_of_lt_of_le hw1 h12
  rcases Nat.eq_zero_or_pos n with hn | hn
  · subst hn
    have e1 : (0 + w2 - 1) / w2 = 0 := by
      rw [Nat.zero_add]
      exact pred_div_self_eq_zero w2
    rw [e1]
    exact Nat.zero_le _
  · set k := (n + w1 - 1) / w1 with hk
    have hkeq : k = (n - 1) / w1 + 1 := ceil_div_pred w1 n hw1 hn
    have hmod := Nat.div_add_mod (n - 1) w1
    have hmlt : (n - 1) % w1 < w1 := Nat.mod_lt _ hw1
    have hmul : w1 * k = w1 * ((n - 1) / w1) + w1 := by
      rw [hkeq]
      ring
    have hle1 : n ≤ w1 * k := by omega
    have hle2 : w1 * k ≤ w2 * k := Nat.mul_le_mul_right k h12
    rw [Nat.div_le_iff_le_mul_add_pred hw2]
    omega

theorem wrapCount_antitone (seg : List Char) (w1 w2 : Nat) (hw1 : 0 < w1)
    (h12 : w1 ≤ w2) : wrapCount w2 seg ≤ wrapCount w1 seg :=
  max_le_max le_rfl (ceilDiv_le_of_le seg.length w1 w2 hw1 h12)

theorem specRequiredLines_antitone (text : List Char) (cols1 cols2 : Nat)
    (h1 : 5 < cols1) (h12 : cols1 ≤ cols2) :
    specRequiredLines text cols2 ≤ specRequiredLines text cols1 := by
  simp only [specRequiredLines, FRAME_CHARS_eq]
  refine Nat.add_le_add_left (List.sum_le_sum ?_) 2
  intro seg _
  exact wrapCount_antitone seg (cols1 - 5) (cols2 - 5) (by omega) (by omega)

theorem scrollLoop_spec (cols : Nat) (hc : 0 < cols) :
    ∀ ls total, scrollLoop cols ls total =
      some (total + (ls.map (wrapCount cols)).sum) := by
  intro ls
  induction ls with
  | nil => intro total; simp [scrollLoop]
  | cons line rest ih =>
    intro total
    by_cases hl : line = []
    · subst hl
      have e : scrollLoop cols ([] :: rest) total = scrollLoop cols rest (total + 1) := by
        simp [scrollLoop]
      rw [e, ih]
      simp only [List.map_cons, List.sum_cons, wrapCount_nil, Option.some.injEq]
      omega
    · have hpos : 0 < line.length := List.length_pos.mpr hl
      have hdiv : checkedDiv (line.length + cols - 1) cols =
          some ((line.length + cols - 1) / cols) := by
        simp [checkedDiv, Nat.pos_iff_ne_zero.mp hc]
      have hwc : wrapCount cols line = (line.length + cols - 1) / cols :=
        Nat.max_eq_right (ceil_div_pos cols line.length hc hpos)
      simp only [scrollLoop, if_neg hl, hdiv, ih, List.map_cons, List.sum_cons,
        Option.some.injEq, hwc]
      omega

theorem submit_scrolled_up_count_eq (text : List Char) (cols : Nat)
    (hc : 0 < cols) : submit_scrolled_up_count text cols =
      some (max 1 (((rustLines text).map (wrapCount cols)).sum)) := by
  have h := scrollLoop_spec cols hc (rustLines text) 0
  simp only [submit_scrolled_up_count, h, Nat.zero_add]
  congr 1
  rcases Nat.eq_zero_or_pos (((rustLines text).map (wrapCount cols)).sum)
    with h0 | h0
  · simp [h0]
  · rw [if_neg (Nat.pos_iff_ne_zero.mp h0), Nat.max_eq_right h0]

theorem update_required_lines_inv {t s' : InputState}
    (h : InputState.update_required_lines t = some s') : stateInv s' := by
  unfold InputState.update_required_lines at h
  cases hc : calculate_required_lines t.buffer t.cols with
  | none => rw [hc] at h; cases h
  | some r =>
    rw [hc] at h
    cases h
    unfold stateInv
    simpa using hc

theorem handle_key_state {s : InputState} {k : KeyCode} {m : KeyModifiers}
    {a : KeyAction} {s' : InputState} (h : s.handle_key k m = some (a, s')) :
    s' = s ∨ ∃ t, InputState.update_required_lines t = some s' := by
  cases k with
  | Esc =>
    have h2 : some (KeyAction.Exit, s) = some (a, s') := h
    cases h2
    exact Or.inl rfl
  | Other =>
    have h2 : some (KeyAction.Continue, s) = some (a, s') := h
    cases h2
    exact Or.inl rfl
  | Enter =>
    simp only [InputState.handle_key] at h
    by_cases halt : m.alt = true
    · rw [if_pos halt] at h
      cases hu : InputState.update_required_lines
          { s with buffer := s.buffer ++ ['\n'] } with
      | none => rw [hu] at h; exact absurd h (by simp)
      | some t =>
        rw [hu] at h
        have h2 : some (KeyAction.Continue, t) = some (a, s') := h
        cases h2
        exact Or.inr ⟨_, hu⟩
    · rw [if_neg halt] at h
      have h2 : some (KeyAction.Continue, s) = some (a, s') := h
      cases h2
      exact Or.inl rfl
  | Backspace =>
    simp only [InputState.handle_key] at h
    cases hu : InputState.update_required_lines
        { s with buffer := s.buffer.dropLast } with
    | none => rw [hu] at h; exact absurd h (by simp)
    | some t =>
      rw [hu] at h
      have h2 : some (KeyAction.Continue, t) = some (a, s') := h
      cases h2
      exact Or.inr ⟨_, hu⟩
  | Char c =>
    simp only [InputState.handle_key] at h
    by_cases hcd : ((c = 'c' || c = 'd') && m.control) = true
    · rw [if_pos hcd] at h
      have h2 : some (KeyAction.Exit, s) = some (a, s') := h
      cases h2
      exact Or.inl rfl
    · rw [if_neg hcd] at h
      by_cases hj : (c = 'j' && m.control) = true
      · rw [if_pos hj] at h
        cases hu : InputState.update_required_lines
            { s with buffer := s.buffer ++ ['\n'] } with
        | none => rw [hu] at h; exact absurd h (by simp)
        | some t =>
          rw [hu] at h
          have h2 : some (KeyAction.Continue, t) = some (a, s') := h
          cases h2
          exact Or.inr ⟨_, hu⟩
      · rw [if_neg hj] at h
        cases hu : InputState.update_required_lines
            { s with buffer := s.buffer ++ [c] } with
        | none => rw [hu] at h; exact absurd h (by simp)
        | some t =>
          rw [hu] at h
          have h2 : some (KeyAction.Continue, t) = some (a, s') := h
          cases h2
          exact Or.inr ⟨_, hu⟩

theorem stepOp_inv {s s' : InputState} {op : Op} (hs : stateInv s)
    (h : stepOp s op = some s') : stateInv s' := by
  cases op with
  | key code m =>
    simp only [stepOp] at h
    cases hk : s.handle_key code m with
    | none => rw [hk] at h; exact absurd h (by simp)
    | some p =>
      obtain ⟨a, t⟩ := p
      rw [hk] at h
      have h2 : some t = some s' := h
      cases h2
      rcases handle_key_state hk with he | ⟨t', ht'⟩
      · rw [he]; exact hs
      · exact update_required_lines_inv ht'
  | resize c r => exact update_required_lines_inv h
  | submit =>
    simp only [stepOp, InputState.get_submitted_text] at h
    by_cases hb : s.buffer = []
    · rw [if_pos hb] at h
      have h2 : some s = some s' := h
      cases h2
      exact hs
    · rw [if_neg hb] at h
      cases hu : InputState.update_required_lines { s with buffer := [] } with
      | none => rw [hu] at h; exact absurd h (by simp)
      | some t =>
        rw [hu] at h
        have h2 : some t = some s' := h
        cases h2
        exact update_required_lines_inv hu

theorem runOps_inv {ops : List Op} : ∀ {s s' : InputState}, stateInv s →
    runOps s ops = some s' → stateInv s' := by
  induction ops with
  | nil =>
    intro s s' hs h
    have h2 : some s = some s' := h
    cases h2
    exact hs
  | cons op ops ih =>
    intro s s' hs h
    simp only [runOps] at h
    cases hst : stepOp s op with
    | none => rw [hst] at h; exact absurd h (by simp)
    | some t =>
      rw [hst] at h
      exact ih (stepOp_inv hs hst) h

/-- C1: for every `cols > 5` and every string `text`,
`calculate_required_lines text cols` equals 2 plus the sum, over the
`split('\n')` segments of `text`, of `max 1 (ceil (len seg / (cols - 5)))`
(each empty segment contributing exactly 1); in particular
`calculate_required_lines "" cols = 3`. -/
theorem claim1_required_lines_formula (text : List Char) (cols : Nat)
    (h : 5 < cols) :
    calculate_required_lines text cols = some (specRequiredLines text cols) ∧
      calculate_required_lines [] cols = some 3 :=
  ⟨calculate_required_lines_eq text cols h, rfl⟩

theorem claim1_witness :
    calculate_required_lines ['a', 'b', '\n', 'c'] 8 =
        some (specRequiredLines ['a', 'b', '\n', 'c'] 8) ∧
      calculate_required_lines [] 8 = some 3 :=
  claim1_required_lines_formula ['a', 'b', '\n', 'c'] 8 (by decide)

/-- C2: starting from `InputState.new cols rows` with `cols > 5`, after any
sequence of `handle_key`, `handle_resize` (keeping `cols > 5`) and
`get_submitted_text` calls that returns, `required_lines` equals
`calculate_required_lines buffer cols`: no operation leaves a stale
value. -/
theorem claim2_required_lines_invariant (cols rows : Nat) (ops : List Op)
    (s0 s : InputState) (h5 : 5 < cols)
    (hops : ∀ op ∈ ops, op.colsOK = true)
    (hnew : InputState.new cols rows = some s0)
    (hrun : runOps s0 ops = some s) :
    calculate_required_lines s.buffer s.cols = some s.required_lines := by
  have hinv0 : stateInv s0 := by
    unfold InputState.new at hnew
    cases hc : calculate_required_lines [] cols with
    | none => rw [hc] at hnew; exact absurd hnew (by simp)
    | some r =>
      rw [hc] at hnew
      cases hnew
      unfold stateInv
      simpa using hc
  exact runOps_inv hinv0 hrun

theorem claim2_witness :
    calculate_required_lines [] 30 = some 3 :=
  claim2_required_lines_invariant 20 10
    [Op.key (KeyCode.Char 'h') ⟨false, false⟩, Op.resize 30 12, Op.submit]
    ⟨[], 20, 10, 3⟩ ⟨[], 30, 12, 3⟩ (by decide) (by decide) (by decide)
    (by decide)

/-- C3 counterexample: at `text = "a"`, `cols = 10`, `rows = 3`,
`required_lines = 5` the subtraction `rows - required_lines` underflows
(modelled by `none`), so `calculate_cursor_position` aborts instead of
returning any `(col, row)` pair, refuting the claim for arbitrary `rows`
and `requiredLines`. -/
theorem claim3_cursor_position_counterexample :
    calculate_cursor_position ['a'] 10 3 5 = none := by decide

/-- C3 amended: additionally assuming `required_lines ≤ rows`, the function
returns `(4 + len(last display line), rows - requiredLines + 1 +
(number of display lines - 1))`, with the display lines produced by the
shared split-on-newline-then-wrap-at-`(cols - 5)` rule. -/
theorem claim3_cursor_position_amended (text : List Char)
    (cols rows required_lines : Nat) (h5 : 5 < cols)
    (hr : required_lines ≤ rows) :
    ∃ lines, cursorDisplayLines (cols - FRAME_CHARS) text = some lines ∧
      1 ≤ lines.length ∧
      calculate_cursor_position text cols rows required_lines =
        some (4 + (lines.getLast?.getD []).length,
          rows - required_lines + 1 + (lines.length - 1)) := by
  have hw : 0 < cols - FRAME_CHARS := by
    rw [FRAME_CHARS_eq]
    omega
  obtain ⟨ls, hls, _, hpos⟩ :=
    cursorDisplayLines_spec (cols - FRAME_CHARS) hw text
  refine ⟨ls, hls, hpos, ?_⟩
  have hsub : checkedSub cols FRAME_CHARS = some (cols - FRAME_CHARS) := by
    simp only [checkedSub, FRAME_CHARS_eq]
    rw [if_pos (by omega)]
  have hsub2 : checkedSub rows required_lines =
      some (rows - required_lines) := by
    simp only [checkedSub]
    rw [if_pos hr]
  simp only [calculate_cursor_position, hsub, hls, hsub2]
  have harith : rows - required_lines + 1 + ls.length - 1 =
      rows - required_lines + 1 + (ls.length - 1) := by omega
  rw [harith]

theorem claim3_cursor_position_witness :
    ∃ lines, cursorDisplayLines (20 - FRAME_CHARS) ['h', 'i'] = some lines ∧
      1 ≤ lines.length ∧
      calculate_cursor_position ['h', 'i'] 20 10 3 =
        some (4 + (lines.getLast?.getD []).length,
          10 - 3 + 1 + (lines.length - 1)) :=
  claim3_cursor_position_amended ['h', 'i'] 20 10 3 (by decide) (by decide)

/-- C4: for `cols > 5` the display-line list used by the cursor computation
and the one used by the renderer are equal (hence same length and same
last line), and their common length plus the two border rows equals
`calculate_required_lines text cols`. -/
theorem claim4_shared_wrap_consistency (text : List Char) (cols : Nat)
    (h : 5 < cols) :
    cursorDisplayLines (cols - FRAME_CHARS) text =
        renderDisplayLines (cols - FRAME_CHARS) text ∧
      ∃ lines, cursorDisplayLines (cols - FRAME_CHARS) text = some lines ∧
        calculate_required_lines text cols = some (lines.length + 2) := by
  have hw : 0 < cols - FRAME_CHARS := by
    rw [FRAME_CHARS_eq]
    omega
  obtain ⟨ls, hls, hlen, _⟩ :=
    cursorDisplayLines_spec (cols - FRAME_CHARS) hw text
  refine ⟨rfl, ls, hls, ?_⟩
  rw [calculate_required_lines_eq text cols h]
  congr 1
  rw [hlen]
  simp only [specRequiredLines]
  omega

theorem claim4_witness :
    cursorDisplayLines (8 - FRAME_CHARS) ['a', '\n'] =
        renderDisplayLines (8 - FRAME_CHARS) ['a', '\n'] ∧
      ∃ lines, cursorDisplayLines (8 - FRAME_CHARS) ['a', '\n'] =
          some lines ∧
        calculate_required_lines ['a', '\n'] 8 = some (lines.length + 2) :=
  claim4_shared_wrap_consistency ['a', '\n'] 8 (by decide)

/-- C5: for fixed text and `5 < cols1 ≤ cols2`, the required line count at
`cols2` never exceeds the one at `cols1`: widening never increases it,
narrowing never decreases it. -/
theorem claim5_resize_monotonic (text : List Char) (cols1 cols2 r1 r2 : Nat)
    (h1 : 5 < cols1) (h12 : cols1 ≤ cols2)
    (e1 : calculate_required_lines text cols1 = some r1)
    (e2 : calculate_required_lines text cols2 = some r2) : r2 ≤ r1 := by
  have h2 : 5 < cols2 := lt_of_lt_of_le h1 h12
  rw [calculate_required_lines_eq text cols1 h1] at e1
  rw [calculate_required_lines_eq text cols2 h2] at e2
  cases e1
  cases e2
  exact specRequiredLines_antitone text cols1 cols2 h1 h12

theorem claim5_witness : (3 : Nat) ≤ 4 :=
  claim5_resize_monotonic ['a', 'b', 'c', 'd', 'e', 'f'] 8 11 4 3
    (by decide) (by decide) (by decide) (by decide)

/-- C6 counterexample: submitting `"a\n"` publishes `ScrolledUp 1` — the
code iterates `lines()`, which drops the empty segment a trailing newline
creates — while the claim formula over `split('\n')` yields 2. -/
theorem claim6_scrolled_count_counterexample :
    submit_scrolled_up_count ['a', '\n'] 10 = some 1 ∧
      specScrolledUpCount ['a', '\n'] 10 = 2 := by decide

/-- C6 amended: for `cols > 0` the published count is the same per-segment
sum (empty line 1, non-empty line `ceil (len / cols)`) but taken over
`text.lines()` — i.e. without the trailing empty segment of a final
newline — with a minimum of 1. -/
theorem claim6_scrolled_count_amended (text : List Char) (cols : Nat)
    (hc : 0 < cols) :
    submit_scrolled_up_count text cols =
      some (max 1 (((rustLines text).map (wrapCount cols)).sum)) :=
  submit_scrolled_up_count_eq text cols hc

theorem claim6_witness :
    submit_scrolled_up_count ['a', '\n', 'b'] 10 =
      some (max 1 (((rustLines ['a', '\n', 'b']).map (wrapCount 10)).sum)) :=
  claim6_scrolled_count_amended ['a', '\n', 'b'] 10 (by decide)

/-- C7 counterexample: with `cols = 20`, `rows = 10`, buffer `"hi"` the
cursor column is `4 + 2 = 6` (the code adds the text length to the fixed
offset 4), not 7 as the claim states. -/
theorem claim7_scenario_counterexample :
    calculate_cursor_position ['h', 'i'] 20 10 3 = some (6, 8) ∧
      calculate_cursor_position ['h', 'i'] 20 10 3 ≠ some (7, 8) := by decide

/-- C7 amended: the scenario holds with cursor column 6: required lines 3,
cursor `(6, 8)`, top border on row 7 and bottom border on row 9. -/
theorem claim7_scenario_amended :
    calculate_required_lines ['h', 'i'] 20 = some 3 ∧
      calculate_cursor_position ['h', 'i'] 20 10 3 = some (6, 8) ∧
      draw_frame_border_rows 10 3 = some (7, 9) := by decide

/-- C8: the width computations are not guarded.  With non-empty text and
`cols = 5` the inner width becomes zero: `calculate_required_lines`
divides by zero and the wrap loop of `calculate_cursor_position` never
advances; with `cols < 5` the subtraction `cols - FRAME_CHARS` underflows.
Every such evaluation aborts (modelled by `none`) instead of rejecting or
clamping the input. -/
theorem claim8_unguarded_width_underflow :
    calculate_required_lines ['x'] 5 = none ∧
      calculate_required_lines ['x'] 4 = none ∧
      calculate_cursor_position ['x'] 5 10 3 = none ∧
      calculate_cursor_position ['x'] 4 10 3 = none := by decide

/-- C9: with `cols > 5`, `get_submitted_text` returns `none` exactly when
the buffer is empty, leaving the state unchanged; on a non-empty buffer it
returns exactly the previous contents, empties the buffer, keeps `cols`
and `rows`, and resets `required_lines` to
`calculate_required_lines "" cols = 3`. -/
theorem claim9_get_submitted_text (s : InputState) (h : 5 < s.cols) :
    ((s.get_submitted_text).map Prod.fst = some none ↔ s.buffer = []) ∧
      (s.buffer = [] → s.get_submitted_text = some (none, s)) ∧
      (s.buffer ≠ [] → s.get_submitted_text =
        some (some s.buffer, ⟨[], s.cols, s.rows, 3⟩)) ∧
      calculate_required_lines [] s.cols = some 3 := by
  have hup : InputState.update_required_lines { s with buffer := [] } =
      some ⟨[], s.cols, s.rows, 3⟩ := rfl
  by_cases hb : s.buffer = []
  · have hret : s.get_submitted_text = some (none, s) := by
      unfold InputState.get_submitted_text
      rw [if_pos hb]
    refine ⟨?_, fun _ => hret, fun hnb => absurd hb hnb, rfl⟩
    rw [hret]
    simp [hb]
  · have hret : s.get_submitted_text =
        some (some s.buffer, ⟨[], s.cols, s.rows, 3⟩) := by
      unfold InputState.get_submitted_text
      rw [if_neg hb, hup]
    refine ⟨?_, fun hb2 => absurd hb2 hb, fun _ => hret, rfl⟩
    rw [hret]
    simp [hb]

theorem claim9_witness :
    InputState.get_submitted_text ⟨['h'], 20, 10, 3⟩ =
      some (some ['h'], ⟨[], 20, 10, 3⟩) :=
  (claim9_get_submitted_text ⟨['h'], 20, 10, 3⟩ (by decide)).2.2.1
    (by decide)

/-- C10 counterexample: on the state `⟨[], 20, 10, 99⟩` (empty buffer but
stale `required_lines`), Backspace returns `Continue` yet rewrites
`required_lines` to 3, so the state is not left unchanged as claimed. -/
theorem claim10_backspace_counterexample :
    InputState.handle_key ⟨[], 20, 10, 99⟩ KeyCode.Backspace
        ⟨false, false⟩ =
        some (KeyAction.Continue, ⟨[], 20, 10, 3⟩) ∧
      (⟨[], 20, 10, 3⟩ : InputState) ≠ ⟨[], 20, 10, 99⟩ := by decide

/-- C10 amended: Backspace returns `Continue`; on an empty buffer whose
`required_lines` already holds its invariant value 3 the state is left
unchanged, and on a non-empty buffer (given `cols > 5`) exactly the last
character is removed and `required_lines` is recomputed. -/
theorem claim10_backspace_amended (s : InputState) (m : KeyModifiers) :
    (s.buffer = [] → s.required_lines = 3 →
      s.handle_key KeyCode.Backspace m = some (KeyAction.Continue, s)) ∧
      (s.buffer ≠ [] → 5 < s.cols →
        ∃ r, calculate_required_lines s.buffer.dropLast s.cols = some r ∧
          s.handle_key KeyCode.Backspace m = some (KeyAction.Continue,
            { s with buffer := s.buffer.dropLast, required_lines := r })) := by
  constructor
  · intro hb hr
    obtain ⟨buf, cols, rows, req⟩ := s
    dsimp only at hb hr
    subst hb
    subst hr
    rfl
  · intro hb h5
    cases hc : calculate_required_lines s.buffer.dropLast s.cols with
    | none =>
      exfalso
      by_cases hd : s.buffer.dropLast = []
      · rw [hd] at hc
        exact absurd hc (by simp [calculate_required_lines])
      · rw [calculate_required_lines_eq _ _ h5] at hc
        cases hc
    | some r =>
      refine ⟨r, rfl, ?_⟩
      simp only [InputState.handle_key, InputState.update_required_lines, hc]

theorem claim10_witness :
    InputState.handle_key ⟨[], 20, 10, 3⟩ KeyCode.Backspace
        ⟨false, false⟩ = some (KeyAction.Continue, ⟨[], 20, 10, 3⟩) :=
  (claim10_backspace_amended ⟨[], 20, 10, 3⟩ ⟨false, false⟩).1 rfl rfl

end Termbox
